import Mathlib

/-!
Verification of the antimeridian-handling scripts of the `ixstats` repository.

The three Python scripts are shallowly embedded over exact rational
coordinates (`ℚ`): a coordinate is a pair `(longitude, latitude)`, a ring is a
list of coordinates, a polygon a list of rings (outer ring first), and a
MultiPolygon a list of polygons.  Python exceptions (ZeroDivisionError on the
interpolation, IndexError / ValueError on empty containers) are modelled with
`Except String`: an `Except.error` value marks the point where the script
would raise and abort.

* `SplitGeo` embeds `scripts/split-dateline-geojson.py` (edge-jump detection
  plus interpolated splitting).
* `SplitV2` embeds `scripts/split-dateline-v2.py` (whole-ring span test plus
  sign-partition splitting into separate features).
* `FixFinal` embeds `scripts/fix-dateline-final.py` (bounding-box test plus
  unify-shift of negative longitudes).
-/

set_option autoImplicit false
set_option maxRecDepth 8192

/-- A coordinate: `(longitude, latitude)`. -/
abbrev Point : Type := ℚ × ℚ

/-- Python's `abs` on a rational value. -/
def absQ (x : ℚ) : ℚ := if x < 0 then -x else x

namespace SplitGeo

/-- Embeds `crosses_dateline` of `split-dateline-geojson.py`: scan every
consecutive coordinate pair and report a crossing when the absolute longitude
jump exceeds 180. -/
def crosses_dateline : List Point → Bool
  | [] => false
  | [_] => false
  | p :: q :: rest =>
    if absQ (q.1 - p.1) > 180 then true else crosses_dateline (q :: rest)

/-- The mutable state of the splitting loop of `split_polygon_at_dateline`:
the `west_part`, `east_part` and `current_part` buffers plus the `is_west`
side flag. -/
structure SplitState where
  west : List Point
  east : List Point
  current : List Point
  isWest : Bool
deriving DecidableEq

/-- One iteration of the loop body of `split_polygon_at_dateline`, on the
consecutive pair `(p, q)`.  A zero interpolation denominator is Python's
ZeroDivisionError. -/
def splitStep (st : SplitState) (p q : Point) : Except String SplitState :=
  let cur := st.current ++ [p]
  if absQ (q.1 - p.1) > 180 then
    if p.1 > 0 then
      let denom := (q.1 + 360) - p.1
      if denom = 0 then .error "ZeroDivisionError"
      else
        let frac := (180 - p.1) / denom
        let latCross := p.2 + frac * (q.2 - p.2)
        let cur2 := cur ++ [((180 : ℚ), latCross)]
        if st.isWest then
          .ok ⟨cur2, st.east, [((-180 : ℚ), latCross)], false⟩
        else
          .ok ⟨st.west, cur2, [((-180 : ℚ), latCross)], true⟩
    else
      let denom := (q.1 - 360) - p.1
      if denom = 0 then .error "ZeroDivisionError"
      else
        let frac := ((-180 : ℚ) - p.1) / denom
        let latCross := p.2 + frac * (q.2 - p.2)
        let cur2 := cur ++ [((-180 : ℚ), latCross)]
        if st.isWest then
          .ok ⟨cur2, st.east, [((180 : ℚ), latCross)], false⟩
        else
          .ok ⟨st.west, cur2, [((180 : ℚ), latCross)], true⟩
  else
    .ok ⟨st.west, st.east, cur, st.isWest⟩

/-- The loop of `split_polygon_at_dateline` over the list of consecutive
coordinate pairs, propagating a raised exception. -/
def splitLoop (st : SplitState) : List (Point × Point) → Except String SplitState
  | [] => .ok st
  | (p, q) :: rest =>
    match splitStep st p q with
    | .error s => .error s
    | .ok st' => splitLoop st' rest

/-- The final-buffer merge of `split_polygon_at_dateline`: a falsy (empty)
side is replaced by the buffer, a non-empty side is extended with the buffer
minus its first element (`current_part[1:]`). -/
def mergeFinal (side cur : List Point) : List Point :=
  match side with
  | [] => cur
  | s :: ss => (s :: ss) ++ cur.tail

/-- The re-closure step of `split_polygon_at_dateline`: if a non-empty part's
first point differs from its last, append a duplicate of the first point. -/
def closeRing : List Point → List Point
  | [] => []
  | p :: ps => if List.getLastD ps p = p then p :: ps else (p :: ps) ++ [p]

/-- Embeds `split_polygon_at_dateline` of `split-dateline-geojson.py`:
walk the consecutive pairs accumulating a current buffer, cut at every
detected crossing with an interpolated seam point, append the ring's last
point, merge the final buffer into the side selected by the `is_west` flag,
and close both parts. -/
def split_polygon_at_dateline (coords : List Point) :
    Except String (List Point × List Point) :=
  match splitLoop ⟨[], [], [], true⟩ (coords.zip coords.tail) with
  | .error s => .error s
  | .ok st =>
    let cur :=
      match coords.getLast? with
      | some p => st.current ++ [p]
      | none => st.current
    if st.isWest then
      .ok (closeRing (mergeFinal st.west cur), closeRing st.east)
    else
      .ok (closeRing st.west, closeRing (mergeFinal st.east cur))

/-- The per-polygon body of the loop of `process_multipolygon`: `polygon[0]`
on an empty polygon is Python's IndexError; a crossing outer ring is split and
each part is kept only when non-empty with more than 3 points (the hole rings
are dropped); a non-crossing polygon is kept as-is. -/
def processPolygon (polygon : List (List Point)) :
    Except String (List (List (List Point))) :=
  match polygon with
  | [] => .error "IndexError"
  | outer :: _holes =>
    if crosses_dateline outer then
      match split_polygon_at_dateline outer with
      | .error s => .error s
      | .ok we =>
        let r1 := if ¬ we.1.isEmpty ∧ 3 < we.1.length then [[we.1]] else []
        let r2 := if ¬ we.2.isEmpty ∧ 3 < we.2.length then [[we.2]] else []
        .ok (r1 ++ r2)
    else .ok [polygon]

/-- Embeds `process_multipolygon` of `split-dateline-geojson.py`: process the
polygons in order, concatenating the resulting polygon lists. -/
def process_multipolygon : List (List (List Point)) →
    Except String (List (List (List Point)))
  | [] => .ok []
  | polygon :: rest =>
    match processPolygon polygon with
    | .error s => .error s
    | .ok cur =>
      match process_multipolygon rest with
      | .error s => .error s
      | .ok others => .ok (cur ++ others)

/-- The `needs_split` check of `process_geojson` in
`split-dateline-geojson.py`: does the outer ring of any polygon cross?
`polygon[0]` on an empty polygon is Python's IndexError. -/
def needsSplit : List (List (List Point)) → Except String Bool
  | [] => .ok false
  | polygon :: rest =>
    match polygon with
    | [] => .error "IndexError"
    | outer :: _ =>
      if crosses_dateline outer then .ok true else needsSplit rest

/-- The per-feature geometry transformation of the loop of `process_geojson`
in `split-dateline-geojson.py`, applied to the whole collection: a
MultiPolygon whose outer rings show a crossing is rewritten by
`process_multipolygon`; the rest pass through.  An uncaught exception aborts
the whole collection. -/
def processFeatures : List (List (List (List Point))) →
    Except String (List (List (List (List Point))))
  | [] => .ok []
  | coords :: rest =>
    match needsSplit coords with
    | .error s => .error s
    | .ok b =>
      match (if b then process_multipolygon coords else .ok coords) with
      | .error s => .error s
      | .ok c =>
        match processFeatures rest with
        | .error s => .error s
        | .ok others => .ok (c :: others)

/-- The ring of spec Scenario A:
`[[179,0],[-179,0],[-179,10],[179,10],[179,0]]`. -/
def ringA : List Point := [(179, 0), (-179, 0), (-179, 10), (179, 10), (179, 0)]

/-- The part of `ringA` holding the positive-side longitudes, exactly as the
script returns it: the seam point `(180, 10)` is missing. -/
def wA : List Point := [(179, 0), (180, 0), (179, 10), (179, 0)]

/-- The part of `ringA` holding the negative-side longitudes, exactly as the
script returns it. -/
def eA : List Point := [(-180, 0), (-179, 0), (-179, 10), (-180, 10), (-180, 0)]

/-- A small non-crossing ring, used as a hole of a crossing polygon. -/
def holeB : List Point := [(170, 1), (171, 1), (171, 2), (170, 2), (170, 1)]

/-- A ring whose first edge runs from longitude 180 to longitude -180: the
edge is declared a crossing and its interpolation denominator
`(lon2 + 360) - lon1` is zero. -/
def ringDeg : List Point := [(180, 0), (-180, 5), (180, 0)]

/-- A well-formed non-crossing MultiPolygon, placed after the degenerate one
in the collection. -/
def goodMP : List (List (List Point)) := [[[(0, 0), (1, 0), (1, 1), (0, 1), (0, 0)]]]

end SplitGeo

namespace SplitV2

/-- A GeoJSON property value (string or integer), enough for the properties
manipulated by `split-dateline-v2.py`. -/
inductive PropVal where
  | str : String → PropVal
  | int : Int → PropVal
deriving DecidableEq

/-- Looking a key up in a property mapping (a Python dict, modelled as an
association list in insertion order). -/
def lookupProp (k : String) : List (String × PropVal) → Option PropVal
  | [] => none
  | (k', v) :: rest => if k' = k then some v else lookupProp k rest

/-- Python dict assignment `props[k] = v`: overwrite the value in place if
the key exists, otherwise append the new key at the end. -/
def setProp : List (String × PropVal) → String → PropVal → List (String × PropVal)
  | [], k, v => [(k, v)]
  | (k', v') :: rest, k, v =>
    if k' = k then (k, v) :: rest else (k', v') :: setProp rest k v

/-- A feature of `split-dateline-v2.py`: MultiPolygon coordinates plus a
property mapping. -/
structure Feature where
  geometry : List (List (List Point))
  props : List (String × PropVal)
deriving DecidableEq

/-- `[coord[0] for coord in outer_ring]` of `split-dateline-v2.py`. -/
def lonsOf (ring : List Point) : List ℚ := ring.map fun c => c.1

/-- The span test of `split-dateline-v2.py` on a non-empty outer ring:
`(max_lon - min_lon) > 350`. -/
def spanGt350B (outer : List Point) : Bool :=
  match lonsOf outer with
  | [] => false
  | l :: ls => decide (ls.foldl max l - ls.foldl min l > 350)

/-- The span computation with Python's ValueError on `min([])`. -/
def ringSpanChk (outer : List Point) : Except String Bool :=
  match lonsOf outer with
  | [] => .error "ValueError"
  | _ :: _ => .ok (spanGt350B outer)

/-- The sign partition of `split-dateline-v2.py`: walk the outer ring
appending each point to `east_points` when its longitude is strictly
positive, else to `west_points`. -/
def eastWestPartition (ring : List Point) : List Point × List Point :=
  ring.foldl
    (fun acc c => if c.1 > 0 then (acc.1 ++ [c], acc.2) else (acc.1, acc.2 ++ [c]))
    ([], [])

/-- The eastern-group shift of `split-dateline-v2.py`: points with longitude
above 170 are moved by -360. -/
def shiftEastPoint (c : Point) : Point := if c.1 > 170 then (c.1 - 360, c.2) else c

/-- The western-group shift of `split-dateline-v2.py`: points with longitude
below -170 are moved by +360. -/
def shiftWestPoint (c : Point) : Point := if c.1 < -170 then (c.1 + 360, c.2) else c

/-- The crossing branch of the polygon loop of `process_geojson` in
`split-dateline-v2.py`: partition the outer ring by longitude sign, shift
each group away from the seam, close it, and keep each group that has more
than 3 points both before and after closing. Each kept group becomes one
MultiPolygon coordinate entry `[[group]]` of `parts_to_split`. -/
def splitPartsOfRing (outer : List Point) : List (List (List (List Point))) :=
  let ew := eastWestPartition outer
  let eParts :=
    if ¬ ew.1.isEmpty ∧ 3 < ew.1.length then
      let ep := SplitGeo.closeRing (ew.1.map shiftEastPoint)
      if 3 < ep.length then [[[ep]]] else []
    else []
  let wParts :=
    if ¬ ew.2.isEmpty ∧ 3 < ew.2.length then
      let wp := SplitGeo.closeRing (ew.2.map shiftWestPoint)
      if 3 < wp.length then [[[wp]]] else []
    else []
  eParts ++ wParts

/-- One iteration of the polygon loop of `process_geojson` in
`split-dateline-v2.py`: report whether this polygon triggered the span test,
together with the `parts_to_split` entries it contributes. -/
def polyParts (polygon : List (List Point)) :
    Except String (Bool × List (List (List (List Point)))) :=
  match polygon with
  | [] => .error "IndexError"
  | outer :: _ =>
    match ringSpanChk outer with
    | .error s => .error s
    | .ok b => if b then .ok (true, splitPartsOfRing outer) else .ok (false, [[polygon]])

/-- The exception-free value of `polyParts` on a well-formed polygon. -/
def polyPartsT (polygon : List (List Point)) : Bool × List (List (List (List Point))) :=
  match polygon with
  | [] => (false, [])
  | outer :: _ =>
    if spanGt350B outer then (true, splitPartsOfRing outer) else (false, [[polygon]])

/-- A Python `for` loop collecting one result per element and aborting on the
first uncaught exception. -/
def mapMExc {α β : Type} (f : α → Except String β) : List α → Except String (List β)
  | [] => .ok []
  | a :: l =>
    match f a with
    | .error s => .error s
    | .ok b =>
      match mapMExc f l with
      | .error s => .error s
      | .ok bs => .ok (b :: bs)

/-- The feature-emission loop of `process_geojson` in `split-dateline-v2.py`:
one feature per `parts_to_split` entry, copying the original properties and
adding `_part = part_idx + 1` when more than one part resulted. -/
def emitParts (props : List (String × PropVal)) (total : Nat) :
    Nat → List (List (List (List Point))) → List Feature
  | _, [] => []
  | idx, pc :: rest =>
    ⟨pc, if 1 < total then setProp props "_part" (.int ((idx : Int) + 1)) else props⟩ ::
      emitParts props total (idx + 1) rest

/-- The per-MultiPolygon-feature transformation of `process_geojson` in
`split-dateline-v2.py`: when some polygon triggers the span test, every
`parts_to_split` entry becomes its own output feature; otherwise the feature
is kept unchanged. -/
def processFeature (f : Feature) : Except String (List Feature) :=
  match mapMExc polyParts f.geometry with
  | .error s => .error s
  | .ok results =>
    let hasCrossing := results.any fun r => r.1
    let parts := (results.map fun r => r.2).flatten
    if hasCrossing then .ok (emitParts f.props parts.length 0 parts)
    else .ok [f]

/-- The crossing ring of spec Scenario D: exactly 5 points with positive
longitude, 3 with negative longitude, and a longitude span of 358. -/
def ring8 : List Point :=
  [(179, 0), (178, 1), (177, 2), (176, 3), (-179, 0), (-178, 1), (-177, 2), (179, 0)]

/-- The eastern group of `ring8` after the -360 shift and re-closure, exactly
as the script computes it. -/
def ring8E : List Point := [(-181, 0), (-182, 1), (-183, 2), (-184, 3), (-181, 0)]

/-- A sample property mapping. -/
def props0 : List (String × PropVal) := [("id", PropVal.str "country-x")]

/-- A non-crossing square outer ring. -/
def outerB : List Point := [(0, 0), (1, 0), (1, 1), (0, 1), (0, 0)]

/-- A non-crossing hole inside `outerB`. -/
def holeC : List Point :=
  [(1/4, 1/4), (1/2, 1/4), (1/2, 1/2), (1/4, 1/2), (1/4, 1/4)]

/-- A crossing ring (span 358 > 350) whose eastern sign group has 2 points
and whose western sign group has 2 points: both groups fail the `> 3` point
test, so the polygon contributes no `parts_to_split` entry at all. -/
def ringSmall : List Point := [(179, 0), (-179, 0), (-179, 1), (179, 0)]

end SplitV2

namespace FixFinal

/-- The `all_lons` accumulation of `fix_dateline_crossing` in
`fix-dateline-final.py`: every longitude of every ring of every polygon. -/
def allLons (mp : List (List (List Point))) : List ℚ :=
  mp.flatMap fun polygon => polygon.flatMap fun ring => ring.map fun c => c.1

/-- The per-longitude unify shift: a negative longitude moves by +360. -/
def shiftLon (x : ℚ) : ℚ := if x < 0 then x + 360 else x

/-- The per-coordinate unify shift of `fix-dateline-final.py`:
`if lon < 0: ring[i] = [lon + 360, lat]`. -/
def shiftPoint (c : Point) : Point := if c.1 < 0 then (c.1 + 360, c.2) else c

/-- The unify shift applied to every coordinate of every ring of every
polygon. -/
def shiftNeg (mp : List (List (List Point))) : List (List (List Point)) :=
  mp.map fun polygon => polygon.map fun ring => ring.map shiftPoint

/-- The bounding-box trigger of `fix_dateline_crossing`:
`min_lon < -170 and max_lon > 170` over all longitudes (no action on an
all-empty geometry). -/
def shiftTriggered (mp : List (List (List Point))) : Bool :=
  match allLons mp with
  | [] => false
  | l :: ls => decide (ls.foldl min l < -170) && decide (ls.foldl max l > 170)

/-- Embeds the geometry transformation of `fix_dateline_crossing` in
`fix-dateline-final.py`: when the bounding-box trigger fires, shift every
negative longitude by +360; otherwise leave the geometry untouched. -/
def fix_dateline_crossing (mp : List (List (List Point))) : List (List (List Point)) :=
  if shiftTriggered mp then shiftNeg mp else mp

/-- A MultiPolygon triggering the unify shift. -/
def mpC : List (List (List Point)) :=
  [[[(179, 0), (-179, 0), (-179, 10), (179, 10), (179, 0)]]]

end FixFinal

section SplitGeoTheorems

open SplitGeo

/-- Every non-empty output of `closeRing` starts and ends with the same
point. -/
theorem closeRing_head_eq_last (l : List Point) (h : closeRing l ≠ []) :
    (closeRing l).head? = (closeRing l).getLast? := by
  match l with
  | [] => simp [closeRing] at h
  | p :: ps =>
    rw [closeRing]
    by_cases hgl : List.getLastD ps p = p
    · rw [if_pos hgl]
      rw [List.getLast?_cons]
      rw [List.getLastD_eq_getLast?] at hgl
      cases hlast : ps.getLast? with
      | none => simp [hlast] at hgl ⊢
      | some q => simp [hlast] at hgl; simp [hlast, hgl]
    · rw [if_neg hgl]
      rw [List.getLast?_concat]
      rfl

/-- `split_polygon_at_dateline` only ever returns parts produced by
`closeRing`. -/
theorem split_ok_parts (coords : List Point) (w e : List Point)
    (h : split_polygon_at_dateline coords = .ok (w, e)) :
    ∃ a b, w = closeRing a ∧ e = closeRing b := by
  unfold split_polygon_at_dateline at h
  cases hsl : splitLoop ⟨[], [], [], true⟩ (coords.zip coords.tail) with
  | error s => rw [hsl] at h; exact absurd h (by simp)
  | ok st =>
    rw [hsl] at h
    by_cases hw : st.isWest
    · simp only [hw, if_true] at h
      obtain ⟨h1, h2⟩ := Prod.mk.injEq .. ▸ Except.ok.inj h
      exact ⟨_, _, h1.symm, h2.symm⟩
    · simp only [hw, if_false] at h
      obtain ⟨h1, h2⟩ := Prod.mk.injEq .. ▸ Except.ok.inj h
      exact ⟨_, _, h1.symm, h2.symm⟩

end SplitGeoTheorems

section SplitGeoClaims

open SplitGeo

/-- C1: splitting the ring `[[179,0],[-179,0],[-179,10],[179,10],[179,0]]`
with `split_polygon_at_dateline` yields exactly two closed rings, but the
positive-side ring contains only the seam point `(180, 0)` and NOT
`(180, 10)`: the final-buffer concatenation `west_part + current_part[1:]`
unconditionally drops the first buffer point even when it is a
non-duplicate seam point.  The negative-side ring does contain both
`(-180, 0)` and `(-180, 10)`.  This evaluates the code at the failing
input of the claim. -/
theorem C1_scenarioA_missing_seam_point :
    process_multipolygon [[ringA]] = .ok [[wA], [eA]] ∧
    ((180 : ℚ), (0 : ℚ)) ∈ wA ∧ (((180 : ℚ), (10 : ℚ)) ∉ wA) ∧
    (((180 : ℚ), (10 : ℚ)) ∉ eA) ∧
    ((-180 : ℚ), (0 : ℚ)) ∈ eA ∧ ((-180 : ℚ), (10 : ℚ)) ∈ eA := by
  refine ⟨?_, ?_, ?_, ?_, ?_, ?_⟩
  · norm_num [process_multipolygon, processPolygon, crosses_dateline,
      split_polygon_at_dateline, splitLoop, splitStep, closeRing, mergeFinal,
      absQ, ringA, wA, eA, List.zip, List.zipWith, List.getLastD, List.getLast]
  · norm_num [wA]
  · norm_num [wA]
  · norm_num [eA]
  · norm_num [eA]
  · norm_num [eA]

/-- C2 counterexample: on the flagged ring `ringA` the returned `west` part
is `[[179,0],[180,0],[179,10],[179,0]]`, whose longitudes are NOT in
`[-180, 0]`: the `is_west` flag starts `True` regardless of which side the
ring actually starts on, so the part named `west` here holds the
positive-side points. -/
theorem C2_cex_west_part_holds_positive_longitudes :
    split_polygon_at_dateline ringA = .ok (wA, eA) ∧
    ¬ (∀ c ∈ wA, (-180 : ℚ) ≤ c.1 ∧ c.1 ≤ 0) := by
  constructor
  · norm_num [split_polygon_at_dateline, splitLoop, splitStep, closeRing,
      mergeFinal, absQ, ringA, wA, eA, List.zip, List.zipWith, List.getLastD,
      List.getLast]
  · intro h
    have := h ((179 : ℚ), (0 : ℚ)) (by norm_num [wA])
    norm_num at this

/-- C2 (amended): for every ring flagged as crossing, each non-empty part
returned by `split_polygon_at_dateline` is a closed ring (its first element
equals its last element); the side/naming guarantee of the original claim
does not hold. -/
theorem C2_flagged_split_parts_are_closed (coords w e : List Point)
    (_hc : crosses_dateline coords = true)
    (hs : split_polygon_at_dateline coords = .ok (w, e)) :
    (w ≠ [] → w.head? = w.getLast?) ∧ (e ≠ [] → e.head? = e.getLast?) := by
  obtain ⟨a, b, hw, he⟩ := split_ok_parts coords w e hs
  subst hw; subst he
  exact ⟨fun h => closeRing_head_eq_last a h, fun h => closeRing_head_eq_last b h⟩

/-- Witness for C2 at the concrete ring `ringA`. -/
theorem C2_flagged_split_parts_are_closed_witness :
    SplitGeo.wA.head? = SplitGeo.wA.getLast? :=
  (C2_flagged_split_parts_are_closed ringA wA eA
    (by norm_num [crosses_dateline, absQ, ringA])
    (by norm_num [split_polygon_at_dateline, splitLoop, splitStep, closeRing,
      mergeFinal, absQ, ringA, wA, eA, List.zip, List.zipWith, List.getLastD,
      List.getLast])).1 (by simp [wA])

/-- C3 counterexample: a collection whose first MultiPolygon contains the
degenerate crossing edge from longitude 180 to longitude -180 makes the whole
run abort with an uncaught ZeroDivisionError; the ring is not dropped with a
diagnostic and the remaining (well-formed) feature is never processed. -/
theorem C3_cex_degenerate_edge_aborts_run :
    processFeatures [[[ringDeg]], goodMP] = .error "ZeroDivisionError" := by
  norm_num [processFeatures, needsSplit, crosses_dateline, absQ, ringDeg, goodMP,
    process_multipolygon, processPolygon, split_polygon_at_dateline, splitLoop,
    splitStep, List.zip, List.zipWith]

/-- C3 (amended): an edge declared a crossing whose interpolation denominator
is zero after the unwrap adjustment raises a ZeroDivisionError inside
`split_polygon_at_dateline` (so no NaN coordinate is ever produced), and the
exception is uncaught: it aborts the processing of the whole collection
instead of dropping the affected ring. -/
theorem C3_zero_denominator_raises (st : SplitState) (p q : Point)
    (hjump : absQ (q.1 - p.1) > 180)
    (hden : if p.1 > 0 then (q.1 + 360) - p.1 = 0 else (q.1 - 360) - p.1 = 0) :
    splitStep st p q = .error "ZeroDivisionError" := by
  by_cases hp : p.1 > 0
  · rw [if_pos hp] at hden
    simp [splitStep, hjump, hp, hden]
  · rw [if_neg hp] at hden
    simp [splitStep, hjump, hp, hden]

/-- Witness for C3 at the edge from `(180, 0)` to `(-180, 5)`. -/
theorem C3_zero_denominator_raises_witness :
    splitStep ⟨[], [], [], true⟩ ((180 : ℚ), (0 : ℚ)) ((-180 : ℚ), (5 : ℚ)) =
      .error "ZeroDivisionError" :=
  C3_zero_denominator_raises ⟨[], [], [], true⟩ ((180 : ℚ), (0 : ℚ))
    ((-180 : ℚ), (5 : ℚ)) (by norm_num [absQ])
    (by rw [if_pos (by norm_num : ((180 : ℚ), (0 : ℚ)).1 > 0)]; norm_num)

/-- C7 counterexample: the hole ring `holeB` has no longitude jump above 180
(the detector returns false), yet processing a polygon whose outer ring
crosses drops `holeB` entirely: it is not returned, unchanged or otherwise. -/
theorem C7_cex_noncrossing_hole_not_returned :
    crosses_dateline holeB = false ∧
    process_multipolygon [[ringA, holeB]] = .ok [[wA], [eA]] ∧
    (∀ poly ∈ [[wA], [eA]], holeB ∉ poly) := by
  refine ⟨?_, ?_, ?_⟩
  · norm_num [crosses_dateline, absQ, holeB]
  · norm_num [process_multipolygon, processPolygon, crosses_dateline,
      split_polygon_at_dateline, splitLoop, splitStep, closeRing, mergeFinal,
      absQ, ringA, wA, eA, holeB, List.zip, List.zipWith, List.getLastD,
      List.getLast]
  · norm_num [wA, eA, holeB]

/-- C7 (amended): a polygon whose OUTER ring the edge-jump detector does not
flag is returned by the SplitInterpolate normalization completely unchanged —
every one of its rings, holes included, in its original position; a
non-flagged hole ring inside a flagged polygon is instead dropped. -/
theorem C7_noncrossing_outer_polygon_unchanged (outer : List Point)
    (holes : List (List Point)) (h : crosses_dateline outer = false) :
    processPolygon (outer :: holes) = .ok [outer :: holes] := by
  simp [processPolygon, h]

/-- Witness for C7 at a concrete non-crossing single-ring polygon. -/
theorem C7_noncrossing_outer_polygon_unchanged_witness :
    processPolygon [holeB] = .ok [[holeB]] :=
  C7_noncrossing_outer_polygon_unchanged holeB []
    (by norm_num [crosses_dateline, absQ, holeB])

/-- C8: when the outer ring of a polygon is flagged as crossing, the result
of `processPolygon` does not depend on the polygon's hole rings at all and
every emitted polygon consists of exactly one ring (so all holes are absent
from the output); when the outer ring is not flagged, the polygon is
returned unmodified, holes included. -/
theorem C8_holes_dropped_iff_outer_crosses (outer : List Point)
    (holes holes' : List (List Point)) :
    (crosses_dateline outer = true →
      processPolygon (outer :: holes) = processPolygon (outer :: holes') ∧
      ∀ res, processPolygon (outer :: holes) = .ok res →
        ∀ poly ∈ res, ∃ r, poly = [r]) ∧
    (crosses_dateline outer = false →
      processPolygon (outer :: holes) = .ok [outer :: holes]) := by
  constructor
  · intro h
    constructor
    · simp [processPolygon, h]
    · intro res hres poly hmem
      simp only [processPolygon, h, if_true] at hres
      cases hsp : split_polygon_at_dateline outer with
      | error s => rw [hsp] at hres; exact absurd hres (by simp)
      | ok we =>
        rw [hsp] at hres
        simp only [Except.ok.injEq] at hres
        subst hres
        rcases List.mem_append.1 hmem with hm | hm
        · by_cases hc : ¬ we.1.isEmpty ∧ 3 < we.1.length
          · rw [if_pos hc] at hm
            exact ⟨we.1, by simpa using hm⟩
          · rw [if_neg hc] at hm
            exact absurd hm (by simp)
        · by_cases hc : ¬ we.2.isEmpty ∧ 3 < we.2.length
          · rw [if_pos hc] at hm
            exact ⟨we.2, by simpa using hm⟩
          · rw [if_neg hc] at hm
            exact absurd hm (by simp)
  · intro h
    simp [processPolygon, h]

/-- Witness for C8: the crossing polygon `[ringA, holeB]` processes exactly
as the same polygon without its hole. -/
theorem C8_holes_dropped_iff_outer_crosses_witness :
    processPolygon [ringA, holeB] = processPolygon [ringA] :=
  ((C8_holes_dropped_iff_outer_crosses ringA [holeB] []).1
    (by norm_num [crosses_dateline, absQ, ringA])).1

end SplitGeoClaims

section FixFinalTheorems

open FixFinal

/-- A left fold of `min` drops below `c` exactly when the seed or some list
element does. -/
theorem foldl_min_lt_iff (c : ℚ) (l : List ℚ) : ∀ a : ℚ,
    l.foldl min a < c ↔ a < c ∨ ∃ x ∈ l, x < c := by
  induction l with
  | nil => intro a; simp
  | cons x l ih =>
    intro a
    rw [List.foldl_cons, ih (min a x), min_lt_iff]
    simp only [List.mem_cons]
    constructor
    · rintro ((h | h) | ⟨y, hy, h⟩)
      · exact Or.inl h
      · exact Or.inr ⟨x, Or.inl rfl, h⟩
      · exact Or.inr ⟨y, Or.inr hy, h⟩
    · rintro (h | ⟨y, (rfl | hy), h⟩)
      · exact Or.inl (Or.inl h)
      · exact Or.inl (Or.inr h)
      · exact Or.inr ⟨y, hy, h⟩

/-- A left fold of `max` exceeds `c` exactly when the seed or some list
element does. -/
theorem lt_foldl_max_iff (c : ℚ) (l : List ℚ) : ∀ a : ℚ,
    c < l.foldl max a ↔ c < a ∨ ∃ x ∈ l, c < x := by
  induction l with
  | nil => intro a; simp
  | cons x l ih =>
    intro a
    rw [List.foldl_cons, ih (max a x), lt_max_iff]
    simp only [List.mem_cons]
    constructor
    · rintro ((h | h) | ⟨y, hy, h⟩)
      · exact Or.inl h
      · exact Or.inr ⟨x, Or.inl rfl, h⟩
      · exact Or.inr ⟨y, Or.inr hy, h⟩
    · rintro (h | ⟨y, (rfl | hy), h⟩)
      · exact Or.inl (Or.inl h)
      · exact Or.inl (Or.inr h)
      · exact Or.inr ⟨y, hy, h⟩

/-- The longitude of a shifted coordinate is the shifted longitude. -/
theorem shiftPoint_lon (c : Point) : (shiftPoint c).1 = shiftLon c.1 := by
  unfold shiftPoint shiftLon
  split_ifs <;> rfl

/-- `all_lons` of a shifted geometry is the pointwise shift of `all_lons`. -/
theorem allLons_shiftNeg (mp : List (List (List Point))) :
    allLons (shiftNeg mp) = (allLons mp).map shiftLon := by
  have hf : ((fun c : Point => c.1) ∘ shiftPoint) = (shiftLon ∘ fun c : Point => c.1) := by
    funext c; exact shiftPoint_lon c
  simp [allLons, shiftNeg, List.flatMap_map, List.map_flatMap, List.map_map, hf]

/-- Longitudes of coordinates of the geometry are collected by `all_lons`. -/
theorem mem_allLons {mp : List (List (List Point))} {polygon : List (List Point)}
    {ring : List Point} {c : Point} (hp : polygon ∈ mp) (hr : ring ∈ polygon)
    (hc : c ∈ ring) : c.1 ∈ allLons mp := by
  simp only [allLons, List.mem_flatMap, List.mem_map]
  exact ⟨polygon, hp, ring, hr, c, hc, rfl⟩

/-- The bounding-box trigger fires whenever some longitude is below -170 and
some longitude is above 170. -/
theorem shiftTriggered_of_bounds (mp : List (List (List Point)))
    (h1 : ∃ x ∈ allLons mp, x < -170) (h2 : ∃ x ∈ allLons mp, 170 < x) :
    shiftTriggered mp = true := by
  unfold shiftTriggered
  cases hL : allLons mp with
  | nil => rw [hL] at h1; simp at h1
  | cons l ls =>
    rw [hL] at h1 h2
    have hmin : ls.foldl min l < -170 := by
      rcases h1 with ⟨x, hx, hlt⟩
      rcases List.mem_cons.1 hx with rfl | hx
      · exact (foldl_min_lt_iff _ _ _).2 (Or.inl hlt)
      · exact (foldl_min_lt_iff _ _ _).2 (Or.inr ⟨x, hx, hlt⟩)
    have hmax : (170 : ℚ) < ls.foldl max l := by
      rcases h2 with ⟨x, hx, hlt⟩
      rcases List.mem_cons.1 hx with rfl | hx
      · exact (lt_foldl_max_iff _ _ _).2 (Or.inl hlt)
      · exact (lt_foldl_max_iff _ _ _).2 (Or.inr ⟨x, hx, hlt⟩)
    simp [hmin, hmax]

end FixFinalTheorems

section FixFinalClaims

open FixFinal

/-- C5: for a MultiPolygon whose longitudes reach below -170 and above 170
(the bounding-box trigger), and whose longitudes are not below -360 (true of
any geographic input), `fix_dateline_crossing` maps every coordinate with a
negative longitude to the same coordinate shifted by +360 and keeps every
other coordinate, preserving the polygon/ring/point structure exactly (no
splitting), and afterwards no longitude is negative. -/
theorem C5_unify_shift (mp : List (List (List Point)))
    (h1 : ∃ x ∈ allLons mp, x < -170)
    (h2 : ∃ x ∈ allLons mp, 170 < x)
    (hbd : ∀ x ∈ allLons mp, -360 ≤ x) :
    fix_dateline_crossing mp =
      mp.map (fun polygon => polygon.map fun ring => ring.map fun c =>
        if c.1 < 0 then (c.1 + 360, c.2) else c) ∧
    (fix_dateline_crossing mp).length = mp.length ∧
    ∀ polygon ∈ fix_dateline_crossing mp, ∀ ring ∈ polygon, ∀ c ∈ ring,
      0 ≤ c.1 := by
  have ht : shiftTriggered mp = true := shiftTriggered_of_bounds mp h1 h2
  have hfix : fix_dateline_crossing mp = shiftNeg mp := by
    unfold fix_dateline_crossing; rw [ht]; rfl
  refine ⟨hfix, by rw [hfix]; simp [shiftNeg], ?_⟩
  rw [hfix]
  intro polygon hp ring hr c hc
  simp only [shiftNeg, List.mem_map] at hp
  rcases hp with ⟨polygon₀, hp₀, rfl⟩
  rcases List.mem_map.1 hr with ⟨ring₀, hr₀, rfl⟩
  rcases List.mem_map.1 hc with ⟨c₀, hc₀, rfl⟩
  have hb := hbd c₀.1 (mem_allLons hp₀ hr₀ hc₀)
  unfold shiftPoint
  split_ifs with h
  · simp only []; linarith
  · exact le_of_not_lt h

/-- Witness for C5 at the concrete MultiPolygon `mpC`. -/
theorem C5_unify_shift_witness :
    fix_dateline_crossing mpC =
      mpC.map (fun polygon => polygon.map fun ring => ring.map fun c =>
        if c.1 < 0 then (c.1 + 360, c.2) else c) ∧
    (fix_dateline_crossing mpC).length = mpC.length ∧
    ∀ polygon ∈ fix_dateline_crossing mpC, ∀ ring ∈ polygon, ∀ c ∈ ring,
      0 ≤ c.1 :=
  C5_unify_shift mpC
    ⟨-179, by norm_num [allLons, mpC], by norm_num⟩
    ⟨179, by norm_num [allLons, mpC], by norm_num⟩
    (by
      intro x hx
      have hv : x = 179 ∨ x = -179 := by
        norm_num [allLons, mpC] at hx; tauto
      rcases hv with rfl | rfl <;> norm_num)

/-- C6: `fix_dateline_crossing` is idempotent on any MultiPolygon whose
longitudes are not below -360: once the negative longitudes are unified the
bounding-box trigger can no longer fire, so a second application leaves every
coordinate unchanged. -/
theorem C6_unify_shift_idempotent (mp : List (List (List Point)))
    (hbd : ∀ x ∈ allLons mp, -360 ≤ x) :
    fix_dateline_crossing (fix_dateline_crossing mp) = fix_dateline_crossing mp := by
  by_cases ht : shiftTriggered mp = true
  · have e1 : fix_dateline_crossing mp = shiftNeg mp := by
      unfold fix_dateline_crossing; rw [ht]; rfl
    have hnn : ∀ y ∈ allLons (shiftNeg mp), (0 : ℚ) ≤ y := by
      rw [allLons_shiftNeg]
      intro y hy
      rcases List.mem_map.1 hy with ⟨x, hx, rfl⟩
      have hb := hbd x hx
      unfold shiftLon
      split_ifs with h
      · linarith
      · exact le_of_not_lt h
    have ht2 : shiftTriggered (shiftNeg mp) = false := by
      unfold shiftTriggered
      cases hL : allLons (shiftNeg mp) with
      | nil => rfl
      | cons l ls =>
        have hmin : ¬ (ls.foldl min l < -170) := by
          rw [foldl_min_lt_iff]
          push_neg
          refine ⟨?_, ?_⟩
          · have := hnn l (hL ▸ List.mem_cons_self l ls); linarith
          · intro x hx
            have := hnn x (hL ▸ List.mem_cons_of_mem l hx); linarith
        simp [hmin]
    rw [e1]
    unfold fix_dateline_crossing
    rw [ht2]
    rfl
  · have e1 : fix_dateline_crossing mp = mp := by
      unfold fix_dateline_crossing
      rw [Bool.not_eq_true] at ht
      rw [ht]
      rfl
    rw [e1, e1]

/-- Witness for C6 at the concrete MultiPolygon `mpC`. -/
theorem C6_unify_shift_idempotent_witness :
    fix_dateline_crossing (fix_dateline_crossing mpC) = fix_dateline_crossing mpC :=
  C6_unify_shift_idempotent mpC
    (by
      intro x hx
      have hv : x = 179 ∨ x = -179 := by
        norm_num [allLons, mpC] at hx; tauto
      rcases hv with rfl | rfl <;> norm_num)

end FixFinalClaims

section SplitV2Theorems

open SplitV2

/-- Unrolling the sign-partition fold with arbitrary accumulators. -/
theorem eastWestPartition_aux (l : List Point) : ∀ e w : List Point,
    l.foldl
      (fun acc c => if c.1 > 0 then (acc.1 ++ [c], acc.2) else (acc.1, acc.2 ++ [c]))
      (e, w) =
      (e ++ l.filter fun c => decide (c.1 > 0),
       w ++ l.filter fun c => ! decide (c.1 > 0)) := by
  induction l with
  | nil => intro e w; simp
  | cons x l ih =>
    intro e w
    rw [List.foldl_cons]
    by_cases hx : x.1 > 0
    · rw [if_pos hx, ih]
      simp [List.filter_cons, hx]
    · rw [if_neg hx, ih]
      simp [List.filter_cons, hx]

/-- The sign partition keeps exactly the strictly-positive longitudes in the
eastern group and all remaining points in the western group. -/
theorem eastWestPartition_eq_filter (ring : List Point) :
    eastWestPartition ring =
      (ring.filter fun c => decide (c.1 > 0),
       ring.filter fun c => ! decide (c.1 > 0)) := by
  unfold eastWestPartition
  rw [eastWestPartition_aux]
  simp

/-- Filtering a predicate and its negation splits the length of a list. -/
theorem length_filter_add_length_filter_not {α : Type} (p : α → Bool) (l : List α) :
    (l.filter p).length + (l.filter fun a => !(p a)).length = l.length := by
  induction l with
  | nil => rfl
  | cons a l ih =>
    by_cases ha : p a
    · simp [List.filter_cons, ha, Nat.succ_add, ih]
    · simp [List.filter_cons, ha]
      omega

/-- Closing a ring never shortens it. -/
theorem closeRing_length_ge (l : List Point) :
    l.length ≤ (SplitGeo.closeRing l).length := by
  match l with
  | [] => simp [SplitGeo.closeRing]
  | p :: ps =>
    rw [SplitGeo.closeRing]
    split_ifs <;> simp

end SplitV2Theorems

section SplitV2Theorems2

open SplitV2

/-- A loop whose every iteration succeeds collects the per-element results. -/
theorem mapMExc_ok {α β : Type} (f : α → Except String β) (g : α → β) (l : List α)
    (h : ∀ x ∈ l, f x = .ok (g x)) : mapMExc f l = .ok (l.map g) := by
  induction l with
  | nil => rfl
  | cons a l ih =>
    rw [mapMExc, h a (List.mem_cons_self a l),
      ih fun x hx => h x (List.mem_cons_of_mem a hx)]
    rfl

/-- On a polygon with a non-empty outer ring, `polyParts` raises nothing and
returns `polyPartsT`. -/
theorem polyParts_ok (outer : List Point) (rest : List (List Point))
    (h : outer ≠ []) : polyParts (outer :: rest) = .ok (polyPartsT (outer :: rest)) := by
  rcases outer with _ | ⟨c, cs⟩
  · exact absurd rfl h
  · by_cases hb : spanGt350B (c :: cs) = true
    · simp [polyParts, polyPartsT, ringSpanChk, lonsOf, hb]
    · simp [polyParts, polyPartsT, ringSpanChk, lonsOf, hb]

/-- Every `parts_to_split` entry contributed by the crossing branch is a
single-polygon MultiPolygon. -/
theorem splitPartsOfRing_single (outer : List Point) :
    ∀ pc ∈ splitPartsOfRing outer, pc.length = 1 := by
  intro pc h
  simp only [splitPartsOfRing] at h
  rcases List.mem_append.1 h with hm | hm <;>
    (split_ifs at hm <;> simp_all)

/-- Every `parts_to_split` entry is a single-polygon MultiPolygon. -/
theorem polyPartsT_snd_single (polygon : List (List Point)) :
    ∀ pc ∈ (polyPartsT polygon).2, pc.length = 1 := by
  rcases polygon with _ | ⟨outer, rest⟩
  · simp [polyPartsT]
  · intro pc h
    simp only [polyPartsT] at h
    by_cases hb : spanGt350B outer = true
    · rw [if_pos hb] at h
      exact splitPartsOfRing_single outer pc h
    · rw [if_neg hb] at h
      simp at h
      rw [h]
      rfl

/-- `emitParts` emits exactly one feature per part. -/
theorem emitParts_length (props : List (String × PropVal)) (total : Nat) :
    ∀ (i : Nat) (l : List (List (List (List Point)))),
      (emitParts props total i l).length = l.length := by
  intro i l
  induction l generalizing i with
  | nil => rfl
  | cons pc rest ih => simp [emitParts, ih]

/-- Every part appears as the geometry of some emitted feature. -/
theorem emitParts_geometry_mem (props : List (String × PropVal)) (total : Nat) :
    ∀ (i : Nat) (l : List (List (List (List Point)))) (pc : List (List (List Point))),
      pc ∈ l → ∃ f ∈ emitParts props total i l, f.geometry = pc := by
  intro i l
  induction l generalizing i with
  | nil => intro pc h; simp at h
  | cons a rest ih =>
    intro pc h
    rcases List.mem_cons.1 h with rfl | h
    · exact ⟨_, List.mem_cons_self _ _, rfl⟩
    · rcases ih (i + 1) pc h with ⟨f, hf, hg⟩
      exact ⟨f, List.mem_cons_of_mem _ hf, hg⟩

/-- The geometry of every emitted feature is one of the parts. -/
theorem emitParts_mem_geometry (props : List (String × PropVal)) (total : Nat) :
    ∀ (i : Nat) (l : List (List (List (List Point)))) (f : Feature),
      f ∈ emitParts props total i l → f.geometry ∈ l := by
  intro i l
  induction l generalizing i with
  | nil => intro f h; simp [emitParts] at h
  | cons a rest ih =>
    intro f h
    rcases List.mem_cons.1 h with rfl | h
    · exact List.mem_cons_self _ _
    · exact List.mem_cons_of_mem _ (ih (i + 1) f h)

/-- The properties of every emitted feature are the original properties,
with `_part` set when more than one part resulted. -/
theorem emitParts_props (props : List (String × PropVal)) (total : Nat) :
    ∀ (i : Nat) (l : List (List (List (List Point)))) (f : Feature),
      f ∈ emitParts props total i l →
      ∃ j : Nat, f.props =
        if 1 < total then setProp props "_part" (.int ((j : Int) + 1)) else props := by
  intro i l
  induction l generalizing i with
  | nil => intro f h; simp [emitParts] at h
  | cons a rest ih =>
    intro f h
    rcases List.mem_cons.1 h with rfl | h
    · exact ⟨i, rfl⟩
    · exact ih (i + 1) f h

/-- Looking a key up after a dict assignment of that key yields the assigned
value. -/
theorem lookupProp_setProp (props : List (String × PropVal)) (k : String) (v : PropVal) :
    lookupProp k (setProp props k v) = some v := by
  induction props with
  | nil => simp [setProp, lookupProp]
  | cons kv rest ih =>
    rcases kv with ⟨k', v'⟩
    by_cases hk : k' = k
    · simp [setProp, lookupProp, hk]
    · simp [setProp, lookupProp, hk, ih]

end SplitV2Theorems2

section SplitV2Claims

open SplitV2

/-- C10: in the sign partition of `split-dateline-v2.py`, the eastern group
receives exactly the coordinates with strictly positive longitude and the
western group all the others; in particular every coordinate whose longitude
is exactly 0 is placed in the western group. -/
theorem C10_zero_longitude_goes_west (ring : List Point) :
    (eastWestPartition ring).1 = (ring.filter fun c => decide (c.1 > 0)) ∧
    (eastWestPartition ring).2 = (ring.filter fun c => decide (c.1 ≤ 0)) ∧
    ∀ c ∈ ring, c.1 = 0 → c ∈ (eastWestPartition ring).2 := by
  have h := eastWestPartition_eq_filter ring
  have hneg : (ring.filter fun c => ! decide (c.1 > 0)) =
      (ring.filter fun c => decide (c.1 ≤ 0)) := by
    apply List.filter_congr
    intro c _
    by_cases hc : c.1 ≤ 0
    · simp [hc, not_lt.2 hc]
    · simp [hc, lt_of_not_le hc]
  refine ⟨by rw [h], by rw [h, hneg], ?_⟩
  intro c hc h0
  rw [h, hneg]
  exact List.mem_filter.2 ⟨hc, by simp [h0]⟩

/-- Witness for C10: the coordinate `(0, 5)` lands in the western group. -/
theorem C10_zero_longitude_goes_west_witness :
    ((0 : ℚ), (5 : ℚ)) ∈
      (eastWestPartition [((0 : ℚ), (5 : ℚ)), (1, 2), (-3, 4)]).2 :=
  (C10_zero_longitude_goes_west [((0 : ℚ), (5 : ℚ)), (1, 2), (-3, 4)]).2.2
    ((0 : ℚ), (5 : ℚ)) (by simp) rfl

/-- C4 counterexample: on a crossing ring with exactly 5 points of positive
longitude and 3 of negative longitude, `split-dateline-v2.py` emits exactly
ONE feature, not two: the 3-point western group fails the `> 3` point test
and is silently dropped, so `len(parts_to_split) == 1` and no `_part`
property is added. -/
theorem C4_cex_single_feature_no_part_property :
    processFeature ⟨[[ring8]], props0⟩ = .ok [⟨[[ring8E]], props0⟩] ∧
    lookupProp "_part" props0 = none := by
  constructor
  · norm_num [processFeature, mapMExc, polyParts, ringSpanChk, lonsOf,
      spanGt350B, splitPartsOfRing, eastWestPartition, shiftEastPoint,
      shiftWestPoint, SplitGeo.closeRing, emitParts, ring8, ring8E, props0,
      List.getLastD, List.getLast, min_def, max_def]
  · simp only [lookupProp, props0]
    decide

/-- C4 (amended): for every ring of 8 points — exactly 5 with positive and 3
with negative longitude — that triggers the span test, the SplitPartition
strategy emits exactly one output feature (the western group is dropped as
degenerate), whose properties are exactly the original properties with no
part-index key added. -/
theorem C4_five_east_three_west_single_part (ring : List Point)
    (props : List (String × PropVal))
    (hlen : ring.length = 8)
    (hpos : (ring.countP fun c => decide (c.1 > 0)) = 5)
    (hspan : spanGt350B ring = true) :
    ∃ g, processFeature ⟨[[ring]], props⟩ = .ok [⟨g, props⟩] := by
  have hne : ring ≠ [] := by
    intro h; rw [h] at hlen; simp at hlen
  have hew := eastWestPartition_eq_filter ring
  have hfpos : (ring.filter fun c => decide (c.1 > 0)).length = 5 := by
    rw [← List.countP_eq_length_filter]
    exact hpos
  have heast : (eastWestPartition ring).1.length = 5 := by
    rw [hew]; exact hfpos
  have hwest : (eastWestPartition ring).2.length = 3 := by
    rw [hew]
    show (ring.filter fun c => ! decide (c.1 > 0)).length = 3
    have hsum := length_filter_add_length_filter_not
      (fun c : Point => decide (c.1 > 0)) ring
    omega
  have hsp : splitPartsOfRing ring =
      [[[SplitGeo.closeRing ((eastWestPartition ring).1.map shiftEastPoint)]]] := by
    simp only [splitPartsOfRing]
    have h1 : ¬ (eastWestPartition ring).1.isEmpty ∧
        3 < (eastWestPartition ring).1.length := by
      constructor
      · intro hemp
        rw [List.isEmpty_iff] at hemp
        rw [hemp] at heast
        simp at heast
      · omega
    have hep : 3 < (SplitGeo.closeRing
        ((eastWestPartition ring).1.map shiftEastPoint)).length := by
      have hml : ((eastWestPartition ring).1.map shiftEastPoint).length = 5 := by
        simp [heast]
      have := closeRing_length_ge ((eastWestPartition ring).1.map shiftEastPoint)
      omega
    have h2 : ¬ (¬ (eastWestPartition ring).2.isEmpty ∧
        3 < (eastWestPartition ring).2.length) := by
      rw [hwest]
      simp
    rw [if_pos h1, if_pos hep, if_neg h2]
    simp
  have hpp : mapMExc polyParts [[ring]] =
      .ok [(true, splitPartsOfRing ring)] := by
    have h1 := polyParts_ok ring [] hne
    have h2 : polyPartsT [ring] = (true, splitPartsOfRing ring) := by
      simp [polyPartsT, hspan]
    rw [mapMExc, h1, h2]
    rfl
  refine ⟨[[SplitGeo.closeRing ((eastWestPartition ring).1.map shiftEastPoint)]], ?_⟩
  rw [processFeature, hpp]
  simp [hsp, emitParts]

/-- Witness for C4 at the concrete ring `ring8`. -/
theorem C4_five_east_three_west_single_part_witness :
    ∃ g, processFeature ⟨[[ring8]], props0⟩ = .ok [⟨g, props0⟩] :=
  C4_five_east_three_west_single_part ring8 props0
    (by norm_num [ring8])
    (by norm_num [ring8, List.countP_cons])
    (by norm_num [spanGt350B, lonsOf, ring8, min_def, max_def])

end SplitV2Claims

section SplitV2Claims2

open SplitV2

/-- C9 (amended): when some polygon of a MultiPolygon feature triggers the
span test, `split-dateline-v2.py` re-emits every `parts_to_split` entry as
its own separate output feature: each output feature's geometry is a
single-polygon MultiPolygon, every polygon that does NOT itself trigger the
span test reappears (holes included) as the geometry of one of the output
features, and when more than one part resulted every output feature carries
the added `_part` index property.  A polygon that does trigger the test is
emitted only as its surviving sign-group parts, possibly none (see the
counterexample on `ringSmall`).  (Well-formedness: every polygon has a
non-empty outer ring, so no Python exception is raised.) -/
theorem C9_span_split_emits_every_polygon (coords : List (List (List Point)))
    (props : List (String × PropVal))
    (hwf : ∀ polygon ∈ coords,
      polygon ≠ [] ∧ ∀ outer rest, polygon = outer :: rest → outer ≠ [])
    (hcross : ∃ outer rest, (outer :: rest) ∈ coords ∧ spanGt350B outer = true) :
    ∃ fs, processFeature ⟨coords, props⟩ = .ok fs ∧
      (∀ f ∈ fs, f.geometry.length = 1) ∧
      (∀ outer rest, (outer :: rest) ∈ coords → spanGt350B outer = false →
        ∃ f ∈ fs, f.geometry = [outer :: rest]) ∧
      (1 < fs.length →
        ∀ f ∈ fs, ∃ j : Int, lookupProp "_part" f.props = some (.int j)) := by
  have hok : ∀ polygon ∈ coords, polyParts polygon = .ok (polyPartsT polygon) := by
    intro polygon hp
    rcases hwf polygon hp with ⟨hne, houter⟩
    rcases polygon with _ | ⟨outer, rest⟩
    · exact absurd rfl hne
    · exact polyParts_ok outer rest (houter outer rest rfl)
  have hmap : mapMExc polyParts coords = .ok (coords.map polyPartsT) :=
    mapMExc_ok _ _ _ hok
  have hcr : ((coords.map polyPartsT).any fun r => r.1) = true := by
    rcases hcross with ⟨outer, rest, hmem, hspan⟩
    rw [List.any_eq_true]
    refine ⟨polyPartsT (outer :: rest), List.mem_map_of_mem _ hmem, ?_⟩
    simp [polyPartsT, hspan]
  refine ⟨emitParts props
      (((coords.map polyPartsT).map fun r => r.2).flatten).length 0
      (((coords.map polyPartsT).map fun r => r.2).flatten), ?_, ?_, ?_, ?_⟩
  · rw [processFeature, hmap]
    simp only [hcr, if_true]
  · intro f hf
    have hg := emitParts_mem_geometry props _ 0 _ f hf
    rcases List.mem_flatten.1 hg with ⟨l, hl, hin⟩
    rcases List.mem_map.1 hl with ⟨r, hr, rfl⟩
    rcases List.mem_map.1 hr with ⟨polygon, _, rfl⟩
    exact polyPartsT_snd_single polygon f.geometry hin
  · intro outer rest hmem hspan
    have hpartmem : [outer :: rest] ∈
        ((coords.map polyPartsT).map fun r => r.2).flatten := by
      apply List.mem_flatten.2
      refine ⟨(polyPartsT (outer :: rest)).2,
        List.mem_map_of_mem _ (List.mem_map_of_mem _ hmem), ?_⟩
      simp [polyPartsT, hspan]
    exact emitParts_geometry_mem props _ 0 _ ([outer :: rest]) hpartmem
  · intro hlen f hf
    rcases emitParts_props props _ 0 _ f hf with ⟨j, hj⟩
    rw [emitParts_length] at hlen
    rw [hj, if_pos hlen]
    exact ⟨(j : Int) + 1, lookupProp_setProp props "_part" _⟩

/-- Witness for C9: a feature holding the crossing ring `ring8` and a
non-crossing polygon with a hole. -/
theorem C9_span_split_emits_every_polygon_witness :
    ∃ fs, processFeature ⟨[[ring8], [outerB, holeC]], props0⟩ = .ok fs ∧
      (∀ f ∈ fs, f.geometry.length = 1) ∧
      (∀ outer rest, (outer :: rest) ∈ [[ring8], [outerB, holeC]] →
        spanGt350B outer = false →
        ∃ f ∈ fs, f.geometry = [outer :: rest]) ∧
      (1 < fs.length →
        ∀ f ∈ fs, ∃ j : Int, lookupProp "_part" f.props = some (.int j)) :=
  C9_span_split_emits_every_polygon [[ring8], [outerB, holeC]] props0
    (by
      intro polygon hp
      simp only [List.mem_cons, List.mem_singleton, List.not_mem_nil,
        or_false] at hp
      rcases hp with rfl | rfl
      · refine ⟨by simp, ?_⟩
        intro outer rest h
        cases h
        simp [ring8]
      · refine ⟨by simp, ?_⟩
        intro outer rest h
        cases h
        simp [outerB])
    ⟨ring8, [], by simp, by norm_num [spanGt350B, lonsOf, ring8, min_def, max_def]⟩

/-- C9 counterexample: in the feature `[[ringSmall], [outerB, holeC]]` the
polygon `[ringSmall]` triggers the span test (span 358 > 350) but both of its
sign groups have only 2 points, so it contributes no part: the output is a
single feature whose geometry is the OTHER polygon, and no output feature has
the crossing polygon as its geometry — it is not emitted as its own
single-polygon feature, refuting the claim's every-polygon quantification. -/
theorem C9_cex_crossing_polygon_dropped_entirely :
    processFeature ⟨[[ringSmall], [outerB, holeC]], props0⟩ =
      .ok [⟨[[outerB, holeC]], props0⟩] ∧
    ([[outerB, holeC]] : List (List (List Point))) ≠ [[ringSmall]] := by
  constructor
  · norm_num [processFeature, mapMExc, polyParts, ringSpanChk, lonsOf,
      spanGt350B, splitPartsOfRing, eastWestPartition, shiftEastPoint,
      shiftWestPoint, SplitGeo.closeRing, emitParts, ringSmall, outerB, holeC,
      props0, List.getLastD, List.getLast, min_def, max_def]
  · simp [outerB, holeC, ringSmall]

end SplitV2Claims2
